import Mathlib

/-!
Verification of the core components of the Face-Authentication-Attendance
system: the liveness detector (`src/spoof/liveness.py`), the face matcher
(`src/face/matcher.py`), the face storage / attendance ledger
(`src/attendance/storage.py`) and the registration flow (`src/app.py`).

Timestamps are modelled as rationals (seconds); calendar dates as the
integer day number `⌊t / 86400⌋`.  Eye observations are modelled at the
boundary of the external Haar-cascade detector: a frame observation is the
list of detected eye regions, each given by its height and width in pixels
(`calculate_ear` only uses the region's height/width ratio).
-/

namespace Liveness

/-- State of `LivenessDetector` (fields set in `__init__`/`reset`):
`blink_count`, `closed_frames`, `check_start_time`, `max_check_duration`.
The class constants `blink_threshold`, `consecutive_frames`,
`required_blinks` are modelled as top-level definitions. -/
structure DetState where
  blink_count : Nat
  closed_frames : Nat
  check_start_time : Option ℚ
  max_check_duration : ℚ
  deriving Repr, DecidableEq

/-- Constant `self.blink_threshold = 0.25`. -/
def blink_threshold : ℚ := 1/4

/-- Constant `self.consecutive_frames = 2`. -/
def consecutive_frames : Nat := 2

/-- Constant `self.required_blinks = 0` ("Disabled for now"). -/
def required_blinks : Nat := 0

/-- Method `reset()`: fresh state for a new liveness check
(`max_check_duration = 1.0`). -/
def resetState : DetState :=
  { blink_count := 0, closed_frames := 0, check_start_time := none,
    max_check_duration := 1 }

/-- An eye region as returned by the external eye detector, reduced to the
data `calculate_ear` consumes: the region's height and width. -/
structure EyeRegion where
  h : Nat
  w : Nat
  deriving Repr, DecidableEq

/-- Method `calculate_ear`: height-to-width ratio of the region, `0` when the
width is zero. -/
def calculate_ear (e : EyeRegion) : ℚ :=
  if e.w = 0 then 0 else (e.h : ℚ) / (e.w : ℚ)

/-- Result dictionary of `check_blink`. -/
structure BlinkResult where
  eyes_detected : Bool
  blink_detected : Bool
  ear_values : List ℚ
  deriving Repr, DecidableEq

/-- Method `check_blink`: given the detected eye regions of the current frame,
update the closed-frame counter / blink counter and report whether eyes
were seen and whether a blink completed on this frame. -/
def check_blink (s : DetState) (eyes : List EyeRegion) :
    BlinkResult × DetState :=
  match eyes with
  | [] => (⟨false, false, []⟩, s)
  | _ :: _ =>
    let ear_values := eyes.map calculate_ear
    let avg_ear := ear_values.sum / (ear_values.length : ℚ)
    let eyes_closed := avg_ear < blink_threshold
    if eyes_closed then
      (⟨true, false, ear_values⟩, { s with closed_frames := s.closed_frames + 1 })
    else
      if s.closed_frames ≥ consecutive_frames then
        (⟨true, true, ear_values⟩,
         { s with blink_count := s.blink_count + 1, closed_frames := 0 })
      else
        (⟨true, false, ear_values⟩, { s with closed_frames := 0 })

/-- Result dictionary of `verify_liveness`: `is_live` is `none` while the
check is still pending, `some true` for LIVE, `some false` for NOT_LIVE. -/
structure VerifyResult where
  is_live : Option Bool
  blink_count : Nat
  time_elapsed : ℚ
  deriving Repr, DecidableEq

/-- Method `verify_liveness`: one verification step on one frame observation at
wall-clock time `now`. -/
def verify_liveness (s : DetState) (now : ℚ) (eyes : List EyeRegion) :
    VerifyResult × DetState :=
  let start := s.check_start_time.getD now
  let s1 := { s with check_start_time := some start }
  let time_elapsed := now - start
  if time_elapsed > s1.max_check_duration then
    (⟨some false, s1.blink_count, time_elapsed⟩, s1)
  else
    let cb := check_blink s1 eyes
    if !cb.1.eyes_detected then
      (⟨none, cb.2.blink_count, time_elapsed⟩, cb.2)
    else if cb.2.blink_count ≥ required_blinks then
      (⟨some true, cb.2.blink_count, time_elapsed⟩, cb.2)
    else
      (⟨none, cb.2.blink_count, time_elapsed⟩, cb.2)

/-- A liveness attempt: feed a list of `(now, eyes)` observations through
`verify_liveness`, collecting the per-call results. -/
def runLiveness (s : DetState) : List (ℚ × List EyeRegion) →
    List VerifyResult × DetState
  | [] => ([], s)
  | obs :: rest =>
    let step := verify_liveness s obs.1 obs.2
    let restRun := runLiveness step.2 rest
    (step.1 :: restRun.1, restRun.2)

end Liveness

namespace Ledger

/-- Calendar day of a timestamp (seconds since epoch): models
`datetime.strftime('%Y-%m-%d')` as the integer day number. -/
def dayOf (t : ℚ) : ℤ := ⌊t / 86400⌋

/-- Time-of-day of a timestamp: models `strftime('%H:%M:%S')` as seconds
since midnight. -/
def timeOfDay (t : ℚ) : ℚ := t - 86400 * (dayOf t : ℚ)

/-- The `'punch_in'` / `'punch_out'` event types. -/
inductive EType where
  | punch_in
  | punch_out
  deriving Repr, DecidableEq

/-- One record of `AttendanceLogger.logs`: `name`, `face_id`, `type`,
`timestamp`, `date`, `time`, plus the optional duration fields added on
punch-out (modelled as the elapsed seconds `out_time - in_time`). -/
structure Event where
  name : String
  face_id : ℤ
  type : EType
  timestamp : ℚ
  date : ℤ
  time : ℚ
  duration : Option ℚ
  deriving Repr, DecidableEq

/-- Reason codes (`'type'` key of a failure result). -/
inductive Reason where
  | duplicate
  | already_completed
  | not_punched_in
  deriving Repr, DecidableEq

/-- Result of `punch_in` / `punch_out`: success flag, failure reason, the
appended entry on success, and the updated log list. -/
structure PunchResult where
  success : Bool
  reason : Option Reason
  entry : Option Event
  logs : List Event
  deriving Repr, DecidableEq

/-- Method `get_status_recent`: walk the log backwards; the first entry for this
name is examined for recency, and the scan keeps going past stale
entries, so the result is the most recent entry for `name` whose
timestamp lies within the last 10 seconds (its `type`), else `none`. -/
def get_status_recent (logs : List Event) (now : ℚ) (name : String) :
    Option EType :=
  (logs.reverse.find? (fun (log : Event) =>
    decide (log.name = name ∧ now - log.timestamp ≤ 10))).map Event.type

/-- Method `get_status_today`: type of the last entry for `name` dated today,
else `none`. -/
def get_status_today (logs : List Event) (now : ℚ) (name : String) :
    Option EType :=
  (logs.reverse.find? (fun (log : Event) =>
    decide (log.name = name ∧ log.date = dayOf now))).map Event.type

/-- Method `_get_last_punch_in_today`: the last `punch_in` entry for `name`
dated today. -/
def lastPunchInToday (logs : List Event) (now : ℚ) (name : String) :
    Option Event :=
  logs.reverse.find? (fun (log : Event) =>
    decide (log.name = name ∧ log.date = dayOf now ∧ log.type = EType.punch_in))

/-- Method `punch_in`: reject as `duplicate` when the recent status is `'in'`,
as `already_completed` when it is `'out'`; otherwise append a fresh
`punch_in` entry stamped with `now`. -/
def punch_in (logs : List Event) (now : ℚ) (name : String) (face_id : ℤ) :
    PunchResult :=
  match get_status_recent logs now name with
  | some EType.punch_in =>
    { success := false, reason := some Reason.duplicate, entry := none,
      logs := logs }
  | some EType.punch_out =>
    { success := false, reason := some Reason.already_completed, entry := none,
      logs := logs }
  | none =>
    let entry : Event :=
      { name := name, face_id := face_id, type := EType.punch_in,
        timestamp := now, date := dayOf now, time := timeOfDay now,
        duration := none }
    { success := true, reason := none, entry := some entry,
      logs := logs ++ [entry] }

/-- Method `punch_out`: reject as `not_punched_in` when there is no entry for
`name` today; reject as `duplicate` when the last entry today is a
punch-out and the recent status is also `'out'`; otherwise append a
`punch_out` entry whose duration is measured from the last `punch_in`
of today, when one exists. -/
def punch_out (logs : List Event) (now : ℚ) (name : String) (face_id : ℤ) :
    PunchResult :=
  match get_status_today logs now name with
  | none =>
    { success := false, reason := some Reason.not_punched_in, entry := none,
      logs := logs }
  | some status =>
    if status = EType.punch_out ∧
        get_status_recent logs now name = some EType.punch_out then
      { success := false, reason := some Reason.duplicate, entry := none,
        logs := logs }
    else
      let entry : Event :=
        { name := name, face_id := face_id, type := EType.punch_out,
          timestamp := now, date := dayOf now, time := timeOfDay now,
          duration := (lastPunchInToday logs now name).map
            (fun p => now - p.timestamp) }
      { success := true, reason := none, entry := some entry,
        logs := logs ++ [entry] }

/-- Method `get_today_logs`: the entries dated today, in log order. -/
def get_today_logs (logs : List Event) (now : ℚ) : List Event :=
  logs.filter (fun (log : Event) => decide (log.date = dayOf now))

/-- Per-person summary row built by `get_today_summary`. -/
inductive Status where
  | completed
  | checked_in
  | unknown
  deriving Repr, DecidableEq

structure Person where
  name : String
  punch_in : Option ℚ
  punch_out : Option ℚ
  duration : Option ℚ
  status : Status
  deriving Repr, DecidableEq

/-- A fresh `people[name]` dictionary entry. -/
def freshPerson (name : String) : Person :=
  { name := name, punch_in := none, punch_out := none, duration := none,
    status := Status.unknown }

/-- Body of the grouping loop of `get_today_summary`: record the event's
time under its punch-in or punch-out slot (punch-out also overwrites the
duration when the entry carries one). -/
def stepPerson (p : Person) (e : Event) : Person :=
  match e.type with
  | EType.punch_in => { p with punch_in := some e.time }
  | EType.punch_out =>
    { p with punch_out := some e.time,
             duration := match e.duration with
                         | some d => some d
                         | none => p.duration }

/-- One iteration of the grouping loop: find (or insert) the dictionary
entry for the event's name, then update it. -/
def stepPeople (ps : List Person) (e : Event) : List Person :=
  if ps.any (fun (p : Person) => p.name = e.name) then
    ps.map (fun (p : Person) => if p.name = e.name then stepPerson p e else p)
  else
    ps ++ [stepPerson (freshPerson e.name) e]

/-- The status assignment applied after grouping. -/
def setStatus (p : Person) : Person :=
  { p with status :=
      if p.punch_in.isSome ∧ p.punch_out.isSome then Status.completed
      else if p.punch_in.isSome then Status.checked_in
      else Status.unknown }

/-- Method `get_today_summary`: group today's entries by name, keeping the last
punch-in time and last punch-out time (and the last recorded duration)
per person, then derive each person's status. -/
def get_today_summary (logs : List Event) (now : ℚ) : List Person :=
  ((get_today_logs logs now).foldl stepPeople []).map setStatus

end Ledger

namespace Matcher

open scoped Classical

/-- Squared Euclidean distance between two feature vectors
(`numpy` subtracts elementwise, then `np.linalg.norm` takes the root of
the sum of squares). -/
def sumSq (a b : List ℚ) : ℚ :=
  ((a.zip b).map (fun p => (p.1 - p.2) ^ 2)).sum

/-- Euclidean distance between two (non-absent) feature vectors. -/
noncomputable def dist (a b : List ℚ) : ℝ :=
  Real.sqrt ((sumSq a b : ℚ) : ℝ)

/-- Method `calculate_distance`: `float('inf')` (the top element) when either
encoding is absent, else the Euclidean distance. -/
noncomputable def calculate_distance (e1 e2 : Option (List ℚ)) : EReal :=
  match e1, e2 with
  | some a, some b => ((dist a b : ℝ) : EReal)
  | _, _ => ⊤

/-- Embeds `np.argmin` over a non-empty list presented as head and tail:
index and value of the first minimum (strict comparison keeps the
earliest occurrence, i.e. ties break to the lowest index). -/
noncomputable def argminGo (i bi : Nat) (bv : ℝ) : List ℝ → Nat × ℝ
  | [] => (bi, bv)
  | y :: ys => if y < bv then argminGo (i+1) i y ys else argminGo (i+1) bi bv ys

/-- Embeds `np.argmin` paired with the minimum value, over a list of distances;
the empty case is never reached by `match_face`. -/
noncomputable def bestOf : List ℝ → Nat × ℝ
  | [] => (0, 0)
  | x :: xs => argminGo 1 0 x xs

/-- Result dictionary of `match_face` (`distance` lives in the extended
reals so that `float('inf')` is representable as `⊤`). -/
structure MatchResult where
  matched : Bool
  name : Option String
  confidence : ℝ
  distance : EReal
  index : Option Nat

/-- The non-match result with infinite distance returned on the early
exits of `match_face`. -/
def noMatchInf : MatchResult :=
  { matched := false, name := none, confidence := 0, distance := ⊤,
    index := none }

/-- Method `match_face`: nearest-neighbour search of `query` against the rows of
`known_encodings` with names `known_names`.  Absent query or empty
registry, and a name/encoding length mismatch, yield the non-match
result; otherwise the minimum-distance row is gated by `threshold` and
scored `max 0 (1 - distance/threshold)`. -/
noncomputable def match_face (threshold : ℝ) (query : Option (List ℚ))
    (known_encodings : List (List ℚ)) (known_names : List String) :
    MatchResult :=
  match query, known_encodings with
  | none, _ => noMatchInf
  | some _, [] => noMatchInf
  | some q, e :: es =>
    if known_names.length ≠ (e :: es).length then noMatchInf
    else
      let distances := (e :: es).map (dist q)
      let best := bestOf distances
      let best_match_idx := best.1
      let best_distance := best.2
      if best_distance ≤ threshold then
        { matched := true,
          name := known_names[best_match_idx]?,
          confidence := max 0 (1 - best_distance / threshold),
          distance := ((best_distance : ℝ) : EReal),
          index := some best_match_idx }
      else
        { matched := false, name := none, confidence := 0,
          distance := ((best_distance : ℝ) : EReal), index := none }

end Matcher

namespace Storage

/-- One record of `FaceStorage.faces`. -/
structure FaceData where
  id : Nat
  name : String
  registered_at : ℚ
  deriving Repr, DecidableEq

/-- In-memory state of `FaceStorage`: the metadata list and the parallel
encoding matrix. -/
structure FaceStorage where
  faces : List FaceData
  encodings : List (List ℚ)
  deriving Repr, DecidableEq

/-- Method `register_face`: the new id is the current number of registered
faces; the metadata record and the encoding row are appended. -/
def register_face (st : FaceStorage) (name : String) (registered_at : ℚ)
    (encoding : List ℚ) : Nat × FaceStorage :=
  let face_id := st.faces.length
  (face_id,
   { faces := st.faces ++ [{ id := face_id, name := name,
                             registered_at := registered_at }],
     encodings := st.encodings ++ [encoding] })

/-- Embeds `np.mean(samples, axis=0)`: elementwise sum of the rows divided by
the number of rows (empty input yields the empty vector). -/
def npMeanAxis0 (samples : List (List ℚ)) : List ℚ :=
  match samples with
  | [] => []
  | v :: vs =>
    (vs.foldl (fun acc w => acc.zipWith (· + ·) w) v).map
      (fun x => x / ((samples.length : ℚ)))

/-- The registration branch of `main` in `src/app.py`: average the
captured sample encodings and register the averaged vector. -/
def registerIdentity (st : FaceStorage) (name : String)
    (registered_at : ℚ) (samples : List (List ℚ)) : Nat × FaceStorage :=
  register_face st name registered_at (npMeanAxis0 samples)

end Storage

namespace Liveness

/-- Whenever any eye region is detected, `check_blink` reports
`eyes_detected = true`. -/
lemma check_blink_eyes_detected (s : DetState) (eyes : List EyeRegion)
    (h : eyes ≠ []) : ((check_blink s eyes).1).eyes_detected = true := by
  cases eyes with
  | nil => exact absurd rfl h
  | cons x xs =>
    simp only [check_blink]
    split
    · rfl
    · split <;> rfl

/-- A frame with no detected eyes never yields LIVE: the step returns
NOT_LIVE on timeout and PENDING otherwise. -/
lemma verify_no_eyes_not_live (s : DetState) (now : ℚ) :
    ((verify_liveness s now []).1).is_live ≠ some true := by
  simp only [verify_liveness, check_blink]
  split
  · simp
  · simp

/-- A run in which no call ever detects eyes never returns LIVE. -/
lemma runLiveness_no_eyes (s : DetState)
    (inputs : List (ℚ × List EyeRegion))
    (h : ∀ p ∈ inputs, p.2 = ([] : List EyeRegion)) :
    ∀ r ∈ (runLiveness s inputs).1, r.is_live ≠ some true := by
  induction inputs generalizing s with
  | nil => simp [runLiveness]
  | cons p rest ih =>
    intro r hr
    simp only [runLiveness, List.mem_cons] at hr
    rcases hr with hr | hr
    · subst hr
      have hp : p.2 = [] := h p (List.mem_cons_self _ _)
      rw [hp]
      exact verify_no_eyes_not_live _ _
    · exact ih _ (fun q hq => h q (List.mem_cons_of_mem _ hq)) r hr

/-- Whenever eyes are detected and the timeout has not yet elapsed, the
step returns LIVE (the blink gate `blink_count >= required_blinks` is
vacuous at `required_blinks = 0`). -/
lemma verify_eyes_live (s : DetState) (now : ℚ) (eyes : List EyeRegion)
    (h : eyes ≠ [])
    (h2 : ¬ (now - s.check_start_time.getD now > s.max_check_duration)) :
    ((verify_liveness s now eyes).1).is_live = some true := by
  simp only [verify_liveness]
  rw [if_neg h2]
  rw [check_blink_eyes_detected _ _ h]
  simp [required_blinks]

end Liveness

/-- C1 (counterexample): from a freshly reset detector, a single call in
which eyes are detected on every frame of the sequence (one open-eyed
frame, EAR = 1) returns LIVE with zero blinks — no closed-to-open
transition was ever observed. -/
theorem C1_live_without_blink_counterexample :
    ((Liveness.verify_liveness Liveness.resetState 0
        [⟨20, 20⟩]).1).is_live = some true ∧
    ((Liveness.verify_liveness Liveness.resetState 0
        [⟨20, 20⟩]).1).blink_count = 0 := by
  norm_num [Liveness.verify_liveness, Liveness.check_blink,
    Liveness.resetState, Liveness.calculate_ear, Liveness.blink_threshold,
    Liveness.consecutive_frames, Liveness.required_blinks]

/-- C1 (amended): since `required_blinks = 0`, LIVE is returned exactly
on calls where eyes are detected and the timeout has not elapsed,
irrespective of blinks; and a call sequence in which the eyes are never
visible never returns LIVE. -/
theorem C1_live_iff_eyes_detected :
    (∀ (s : Liveness.DetState) (now : ℚ)
       (eyes : List Liveness.EyeRegion), eyes ≠ [] →
       ¬ (now - s.check_start_time.getD now > s.max_check_duration) →
       ((Liveness.verify_liveness s now eyes).1).is_live = some true) ∧
    (∀ (s : Liveness.DetState)
       (inputs : List (ℚ × List Liveness.EyeRegion)),
       (∀ p ∈ inputs, p.2 = ([] : List Liveness.EyeRegion)) →
       ∀ r ∈ (Liveness.runLiveness s inputs).1, r.is_live ≠ some true) :=
  ⟨Liveness.verify_eyes_live, Liveness.runLiveness_no_eyes⟩

/-- C1 (witness for the amended theorem): a concrete open-eyed call from
reset returns LIVE, and a concrete two-call eyeless run never returns
LIVE. -/
theorem C1_live_iff_eyes_detected_witness :
    ((Liveness.verify_liveness Liveness.resetState 0
        [⟨20, 20⟩]).1).is_live = some true ∧
    ∀ r ∈ (Liveness.runLiveness Liveness.resetState
        [(0, []), ((1 : ℚ)/2, [])]).1, r.is_live ≠ some true := by
  constructor
  · exact C1_live_iff_eyes_detected.1 Liveness.resetState 0 [⟨20, 20⟩]
      (by simp) (by norm_num [Liveness.resetState])
  · exact C1_live_iff_eyes_detected.2 Liveness.resetState
      [(0, []), ((1 : ℚ)/2, [])] (by simp)

namespace Liveness

/-- Once the elapsed time since the latched start exceeds
`max_check_duration`, the step returns NOT_LIVE whatever the frame
shows. -/
lemma verify_timeout (s : DetState) (now : ℚ) (eyes : List EyeRegion)
    (t0 : ℚ) (h : s.check_start_time = some t0)
    (h2 : now - t0 > s.max_check_duration) :
    ((verify_liveness s now eyes).1).is_live = some false := by
  simp only [verify_liveness, h, Option.getD_some]
  rw [if_pos h2]

end Liveness

/-- C2 (counterexample): in the two-call sequence from reset in which the
eyes are detected on every call (so the eye-visibility observation never
transitions), the call past the timeout does return NOT_LIVE, but the
first call already returned LIVE — contradicting that no call in such a
sequence returns LIVE. -/
theorem C2_always_visible_counterexample :
    ((Liveness.runLiveness Liveness.resetState
        [(0, [⟨20, 20⟩]), (2, [⟨20, 20⟩])]).1.map
      (fun r => r.is_live)) = [some true, some false] := by
  norm_num [Liveness.runLiveness, Liveness.verify_liveness,
    Liveness.check_blink, Liveness.resetState, Liveness.calculate_ear,
    Liveness.blink_threshold, Liveness.consecutive_frames,
    Liveness.required_blinks]

/-- C2 (amended): once the elapsed time since the first call exceeds the
timeout duration, `verify_liveness` returns NOT_LIVE; and in sequences in
which the eyes are visible on no call, no call ever returns LIVE.  (In
sequences where the eyes are visible on every call, calls before the
timeout return LIVE, since `required_blinks = 0` — see the
counterexample.) -/
theorem C2_timeout_not_live :
    (∀ (s : Liveness.DetState) (now : ℚ)
       (eyes : List Liveness.EyeRegion) (t0 : ℚ),
       s.check_start_time = some t0 →
       now - t0 > s.max_check_duration →
       ((Liveness.verify_liveness s now eyes).1).is_live = some false) ∧
    (∀ (s : Liveness.DetState)
       (inputs : List (ℚ × List Liveness.EyeRegion)),
       (∀ p ∈ inputs, p.2 = ([] : List Liveness.EyeRegion)) →
       ∀ r ∈ (Liveness.runLiveness s inputs).1, r.is_live ≠ some true) :=
  ⟨Liveness.verify_timeout, Liveness.runLiveness_no_eyes⟩

/-- C2 (witness): the detector state latched at time 0 times out at time
2 on an eyeless frame, and a concrete eyeless two-call run never returns
LIVE. -/
theorem C2_timeout_not_live_witness :
    ((Liveness.verify_liveness
        { blink_count := 0, closed_frames := 0, check_start_time := some 0,
          max_check_duration := 1 } 2 []).1).is_live = some false ∧
    ∀ r ∈ (Liveness.runLiveness Liveness.resetState
        [(0, []), (2, [])]).1, r.is_live ≠ some true := by
  constructor
  · exact C2_timeout_not_live.1 _ 2 [] 0 rfl (by norm_num)
  · exact C2_timeout_not_live.2 Liveness.resetState
      [(0, []), (2, [])] (by simp)

namespace Ledger

/-- Searching a reversed list is taking the last match of the original
list. -/
lemma find?_reverse_eq_getLast?_filter {α : Type} (p : α → Bool)
    (L : List α) : L.reverse.find? p = (L.filter p).getLast? := by
  induction L with
  | nil => rfl
  | cons a L ih =>
    rw [List.reverse_cons, List.find?_append, ih, List.filter_cons]
    by_cases hp : p a = true
    · rw [if_pos hp]
      rw [show a :: L.filter p = [a] ++ L.filter p from rfl,
        List.getLast?_append]
      simp [List.find?, hp]
    · rw [if_neg hp]
      simp [List.find?, hp]

/-- Strengthening the predicate of a successful `find?` by an extra
condition that the found element satisfies does not change the result. -/
lemma find?_and_right {α : Type} (p r : α → Bool) (L : List α) (e : α)
    (h : L.find? p = some e) (hr : r e = true) :
    L.find? (fun a => p a && r a) = some e := by
  induction L with
  | nil => simp at h
  | cons a L ih =>
    by_cases hp : p a = true
    · rw [List.find?_cons_of_pos _ hp] at h
      injection h with h
      subst h
      exact List.find?_cons_of_pos _ (by simp [hp, hr])
    · rw [List.find?_cons_of_neg _ hp] at h
      rw [List.find?_cons_of_neg]
      · exact ih h
      · simp [hp]

/-- The most recent event in the ledger carrying a given name (the claim
vocabulary for the short-window checks). -/
def lastEventFor (logs : List Event) (nm : String) : Option Event :=
  logs.reverse.find? (fun (l : Event) => decide (l.name = nm))

/-- When the most recent event for `nm` lies within the last 10 seconds,
`get_status_recent` reports its type. -/
lemma get_status_recent_of_lastEventFor (logs : List Event) (now : ℚ)
    (nm : String) (e : Event) (h : lastEventFor logs nm = some e)
    (ht : now - e.timestamp ≤ 10) :
    get_status_recent logs now nm = some e.type := by
  unfold get_status_recent
  have hpred : (fun (l : Event) => decide (l.name = nm ∧ now - l.timestamp ≤ 10))
      = fun (l : Event) => decide (l.name = nm) && decide (now - l.timestamp ≤ 10) := by
    funext l
    simp [Bool.decide_and]
  rw [hpred, find?_and_right _ _ _ _ h (decide_eq_true ht)]
  rfl

end Ledger

namespace Ledger

/-- A concrete sample ledger entry (name "A", id 7) used in the fully
concrete statements below. -/
def sampleEvent (ty : EType) (t : ℚ) : Event :=
  { name := "A", face_id := 7, type := ty, timestamp := t,
    date := dayOf t, time := timeOfDay t, duration := none }

end Ledger

/-- C3: a `punch_in` is rejected as a duplicate, with the ledger
unchanged, whenever the most recent event for that name lies within the
last 10 seconds and is an ENTRY; concretely, of two punch-ins for the
same name 2 seconds apart the second is rejected, while 11 seconds apart
both are accepted. -/
theorem C3_punch_in_short_window_dedup :
    (∀ (logs : List Ledger.Event) (now : ℚ) (nm : String) (fid : ℤ)
       (e : Ledger.Event),
       Ledger.lastEventFor logs nm = some e →
       now - e.timestamp ≤ 10 →
       e.type = Ledger.EType.punch_in →
       (Ledger.punch_in logs now nm fid).success = false ∧
       (Ledger.punch_in logs now nm fid).reason
         = some Ledger.Reason.duplicate ∧
       (Ledger.punch_in logs now nm fid).logs = logs) ∧
    ((Ledger.punch_in [] 0 "A" 7).success = true ∧
     (Ledger.punch_in (Ledger.punch_in [] 0 "A" 7).logs 2 "A" 7).success
       = false ∧
     (Ledger.punch_in (Ledger.punch_in [] 0 "A" 7).logs 2 "A" 7).logs
       = (Ledger.punch_in [] 0 "A" 7).logs) ∧
    ((Ledger.punch_in [] 0 "A" 7).success = true ∧
     (Ledger.punch_in (Ledger.punch_in [] 0 "A" 7).logs 11 "A" 7).success
       = true) := by
  have hlogs : (Ledger.punch_in [] 0 "A" 7).logs
      = [Ledger.sampleEvent Ledger.EType.punch_in 0] := rfl
  have hlast : Ledger.lastEventFor
      [Ledger.sampleEvent Ledger.EType.punch_in 0] "A"
      = some (Ledger.sampleEvent Ledger.EType.punch_in 0) := rfl
  have hrec2 : Ledger.get_status_recent
      [Ledger.sampleEvent Ledger.EType.punch_in 0] 2 "A"
      = some Ledger.EType.punch_in :=
    Ledger.get_status_recent_of_lastEventFor _ 2 "A" _ hlast
      (show (2 : ℚ) - 0 ≤ 10 by norm_num)
  have hrec11 : Ledger.get_status_recent
      [Ledger.sampleEvent Ledger.EType.punch_in 0] 11 "A" = none := by
    unfold Ledger.get_status_recent
    rw [show ([Ledger.sampleEvent Ledger.EType.punch_in 0]).reverse
        = [Ledger.sampleEvent Ledger.EType.punch_in 0] from rfl]
    rw [List.find?_cons_of_neg _ (by
      intro hc
      rw [decide_eq_true_eq] at hc
      have h11 : (11 : ℚ) - 0 ≤ 10 := hc.2
      norm_num at h11)]
    rfl
  refine ⟨?_, ⟨rfl, ?_, ?_⟩, ⟨rfl, ?_⟩⟩
  · intro logs now nm fid e h ht htype
    have hs : Ledger.get_status_recent logs now nm = some e.type :=
      Ledger.get_status_recent_of_lastEventFor logs now nm e h ht
    rw [htype] at hs
    simp [Ledger.punch_in, hs]
  · rw [hlogs]
    simp [Ledger.punch_in, hrec2]
  · rw [hlogs]
    simp [Ledger.punch_in, hrec2]
  · rw [hlogs]
    simp [Ledger.punch_in, hrec11]

/-- C3 (witness): with a single ENTRY for "A" at time 0 in the ledger, a
punch-in at time 2 is rejected as a duplicate and appends nothing. -/
theorem C3_punch_in_short_window_dedup_witness :
    (Ledger.punch_in [Ledger.sampleEvent Ledger.EType.punch_in 0]
        2 "A" 7).success = false ∧
    (Ledger.punch_in [Ledger.sampleEvent Ledger.EType.punch_in 0]
        2 "A" 7).logs = [Ledger.sampleEvent Ledger.EType.punch_in 0] := by
  have h := C3_punch_in_short_window_dedup.1
    [Ledger.sampleEvent Ledger.EType.punch_in 0] 2 "A" 7
    (Ledger.sampleEvent Ledger.EType.punch_in 0) rfl
    (show (2 : ℚ) - 0 ≤ 10 by norm_num) rfl
  exact ⟨h.1, h.2.2⟩

/-- C10: a `punch_in` is rejected with reason `already_completed`, with
the ledger unchanged, whenever the most recent event for that name lies
within the last 10 seconds and is an EXIT. -/
theorem C10_punch_in_rejected_after_recent_exit :
    ∀ (logs : List Ledger.Event) (now : ℚ) (nm : String) (fid : ℤ)
      (e : Ledger.Event),
      Ledger.lastEventFor logs nm = some e →
      now - e.timestamp ≤ 10 →
      e.type = Ledger.EType.punch_out →
      (Ledger.punch_in logs now nm fid).success = false ∧
      (Ledger.punch_in logs now nm fid).reason
        = some Ledger.Reason.already_completed ∧
      (Ledger.punch_in logs now nm fid).logs = logs := by
  intro logs now nm fid e h ht htype
  have hs : Ledger.get_status_recent logs now nm = some e.type :=
    Ledger.get_status_recent_of_lastEventFor logs now nm e h ht
  rw [htype] at hs
  simp [Ledger.punch_in, hs]

/-- C10 (witness): with a single EXIT for "A" at time 0 in the ledger, a
punch-in at time 2 is rejected with `already_completed` and appends
nothing. -/
theorem C10_punch_in_rejected_after_recent_exit_witness :
    (Ledger.punch_in [Ledger.sampleEvent Ledger.EType.punch_out 0]
        2 "A" 7).reason = some Ledger.Reason.already_completed ∧
    (Ledger.punch_in [Ledger.sampleEvent Ledger.EType.punch_out 0]
        2 "A" 7).logs = [Ledger.sampleEvent Ledger.EType.punch_out 0] := by
  have h := C10_punch_in_rejected_after_recent_exit
    [Ledger.sampleEvent Ledger.EType.punch_out 0] 2 "A" 7
    (Ledger.sampleEvent Ledger.EType.punch_out 0) rfl
    (show (2 : ℚ) - 0 ≤ 10 by norm_num) rfl
  exact ⟨h.2.1, h.2.2⟩

/-- C4: `punch_out` is rejected with reason `not_punched_in` (and the
ledger left unchanged) when the name has no event today; an accepted
`punch_out` appends an entry whose duration is the call time minus the
timestamp of the most recent ENTRY for that name today
(`lastPunchInToday`, which indeed picks the last ENTRY of today for the
name out of the log). -/
theorem C4_punch_out_gating_and_duration :
    (∀ (logs : List Ledger.Event) (now : ℚ) (nm : String) (fid : ℤ),
       (∀ e ∈ logs, ¬ (e.name = nm ∧ e.date = Ledger.dayOf now)) →
       (Ledger.punch_out logs now nm fid).success = false ∧
       (Ledger.punch_out logs now nm fid).reason
         = some Ledger.Reason.not_punched_in ∧
       (Ledger.punch_out logs now nm fid).logs = logs) ∧
    (∀ (logs : List Ledger.Event) (now : ℚ) (nm : String) (fid : ℤ)
       (p : Ledger.Event),
       Ledger.lastPunchInToday logs now nm = some p →
       (Ledger.punch_out logs now nm fid).success = true →
       ∃ ev, (Ledger.punch_out logs now nm fid).entry = some ev ∧
         ev.duration = some (now - p.timestamp) ∧
         (Ledger.punch_out logs now nm fid).logs = logs ++ [ev]) ∧
    (∀ (logs : List Ledger.Event) (now : ℚ) (nm : String),
       Ledger.lastPunchInToday logs now nm
         = (logs.filter (fun (e : Ledger.Event) =>
             decide (e.name = nm ∧ e.date = Ledger.dayOf now ∧
               e.type = Ledger.EType.punch_in))).getLast?) := by
  refine ⟨?_, ?_, ?_⟩
  · intro logs now nm fid h
    have hnone : Ledger.get_status_today logs now nm = none := by
      unfold Ledger.get_status_today
      rw [List.find?_eq_none.mpr]
      · rfl
      · intro x hx
        simpa using h x (List.mem_reverse.mp hx)
    simp [Ledger.punch_out, hnone]
  · intro logs now nm fid p hp hsucc
    cases hst : Ledger.get_status_today logs now nm with
    | none => simp [Ledger.punch_out, hst] at hsucc
    | some st =>
      by_cases hdup : st = Ledger.EType.punch_out ∧
          Ledger.get_status_recent logs now nm = some Ledger.EType.punch_out
      · simp [Ledger.punch_out, hst, hdup] at hsucc
      · refine
          ⟨{ name := nm, face_id := fid, type := Ledger.EType.punch_out,
             timestamp := now, date := Ledger.dayOf now,
             time := Ledger.timeOfDay now,
             duration := (Ledger.lastPunchInToday logs now nm).map
               (fun q => now - q.timestamp) },
           ?_, ?_, ?_⟩
        · simp [Ledger.punch_out, hst, hdup]
        · simp [hp]
        · simp [Ledger.punch_out, hst, hdup]
  · intro logs now nm
    unfold Ledger.lastPunchInToday
    exact Ledger.find?_reverse_eq_getLast?_filter _ _

/-- C4 (witness): on the empty ledger every `punch_out` is rejected as
not punched in; with a single ENTRY for "A" at time 0, a punch-out at
time 3700 is accepted and records duration 3700 seconds. -/
theorem C4_punch_out_gating_and_duration_witness :
    ((Ledger.punch_out [] 0 "A" 7).reason
       = some Ledger.Reason.not_punched_in) ∧
    ∃ ev, (Ledger.punch_out [Ledger.sampleEvent Ledger.EType.punch_in 0]
          3700 "A" 7).entry = some ev ∧
      ev.duration = some ((3700 : ℚ)
        - (Ledger.sampleEvent Ledger.EType.punch_in 0).timestamp) ∧
      (Ledger.punch_out [Ledger.sampleEvent Ledger.EType.punch_in 0]
          3700 "A" 7).logs
        = [Ledger.sampleEvent Ledger.EType.punch_in 0] ++ [ev] := by
  have hdate : (Ledger.sampleEvent Ledger.EType.punch_in 0).date
      = Ledger.dayOf 3700 := by
    show Ledger.dayOf 0 = Ledger.dayOf 3700
    unfold Ledger.dayOf
    rw [show ((0 : ℚ) / 86400) = 0 by norm_num, Int.floor_zero]
    symm
    rw [Int.floor_eq_iff]
    norm_num
  constructor
  · exact (C4_punch_out_gating_and_duration.1 [] 0 "A" 7 (by simp)).2.1
  · have hfp : (fun (log : Ledger.Event) =>
        decide (log.name = "A" ∧ log.date = Ledger.dayOf 3700 ∧
          log.type = Ledger.EType.punch_in))
        (Ledger.sampleEvent Ledger.EType.punch_in 0) = true :=
      decide_eq_true ⟨rfl, hdate, rfl⟩
    have hfq : (fun (log : Ledger.Event) =>
        decide (log.name = "A" ∧ log.date = Ledger.dayOf 3700))
        (Ledger.sampleEvent Ledger.EType.punch_in 0) = true :=
      decide_eq_true ⟨rfl, hdate⟩
    have hp : Ledger.lastPunchInToday
        [Ledger.sampleEvent Ledger.EType.punch_in 0] 3700 "A"
        = some (Ledger.sampleEvent Ledger.EType.punch_in 0) := by
      unfold Ledger.lastPunchInToday
      rw [show ([Ledger.sampleEvent Ledger.EType.punch_in 0]).reverse
          = [Ledger.sampleEvent Ledger.EType.punch_in 0] from rfl]
      exact List.find?_cons_of_pos _ hfp
    have hst : Ledger.get_status_today
        [Ledger.sampleEvent Ledger.EType.punch_in 0] 3700 "A"
        = some Ledger.EType.punch_in := by
      have hfind : List.find? (fun (log : Ledger.Event) =>
          decide (log.name = "A" ∧ log.date = Ledger.dayOf 3700))
          [Ledger.sampleEvent Ledger.EType.punch_in 0]
          = some (Ledger.sampleEvent Ledger.EType.punch_in 0) :=
        List.find?_cons_of_pos _ hfq
      unfold Ledger.get_status_today
      rw [show ([Ledger.sampleEvent Ledger.EType.punch_in 0]).reverse
          = [Ledger.sampleEvent Ledger.EType.punch_in 0] from rfl]
      rw [hfind]
      rfl
    have hsucc : (Ledger.punch_out
        [Ledger.sampleEvent Ledger.EType.punch_in 0] 3700 "A" 7).success
        = true := by
      simp [Ledger.punch_out, hst]
    exact C4_punch_out_gating_and_duration.2.1
      [Ledger.sampleEvent Ledger.EType.punch_in 0] 3700 "A" 7
      (Ledger.sampleEvent Ledger.EType.punch_in 0) hp hsucc

/-- C9: an absent query yields the non-match result (matched false,
distance `⊤` i.e. `+infinity`, confidence 0), and so does any query
against an empty registry. -/
theorem C9_absent_query_or_empty_registry :
    (∀ (t : ℝ) (encs : List (List ℚ)) (names : List String),
       Matcher.match_face t none encs names = Matcher.noMatchInf) ∧
    (∀ (t : ℝ) (q : Option (List ℚ)) (names : List String),
       Matcher.match_face t q [] names = Matcher.noMatchInf) ∧
    Matcher.noMatchInf.matched = false ∧
    Matcher.noMatchInf.distance = ⊤ ∧
    Matcher.noMatchInf.confidence = 0 := by
  refine ⟨?_, ?_, rfl, rfl, rfl⟩
  · intro t encs names
    rfl
  · intro t q names
    cases q with
    | none => rfl
    | some q => rfl

/-- C8: a mismatch between the number of names and the number of
registry encodings makes `match_face` return the non-match result (with
infinite distance) rather than raising. -/
theorem C8_length_mismatch_non_match :
    ∀ (t : ℝ) (q : Option (List ℚ)) (encs : List (List ℚ))
      (names : List String),
      names.length ≠ encs.length →
      Matcher.match_face t q encs names = Matcher.noMatchInf := by
  intro t q encs names h
  match q, encs with
  | none, _ => rfl
  | some q, [] => rfl
  | some q, e :: es =>
    simp only [Matcher.match_face]
    rw [if_pos h]

/-- C8 (witness): two encodings but a single name is a data-integrity
error reported as non-match. -/
theorem C8_length_mismatch_non_match_witness :
    Matcher.match_face 1 (some [0]) [[0], [1]] ["a"]
      = Matcher.noMatchInf :=
  C8_length_mismatch_non_match 1 (some [0]) [[0], [1]] ["a"] (by decide)

namespace Matcher

/-- The running value of `argminGo` bounds every scanned element and the
running best from below. -/
lemma argminGo_snd_le (xs : List ℝ) :
    ∀ (i bi : Nat) (bv : ℝ),
      (argminGo i bi bv xs).2 ≤ bv ∧
      ∀ y ∈ xs, (argminGo i bi bv xs).2 ≤ y := by
  induction xs with
  | nil => intro i bi bv; simp [argminGo]
  | cons y ys ih =>
    intro i bi bv
    simp only [argminGo]
    by_cases hy : y < bv
    · rw [if_pos hy]
      refine ⟨le_trans (ih (i+1) i y).1 (le_of_lt hy), ?_⟩
      intro z hz
      rcases List.mem_cons.mp hz with hz | hz
      · rw [hz]
        exact (ih (i+1) i y).1
      · exact (ih (i+1) i y).2 z hz
    · rw [if_neg hy]
      refine ⟨(ih (i+1) bi bv).1, ?_⟩
      intro z hz
      rcases List.mem_cons.mp hz with hz | hz
      · rw [hz]
        exact le_trans (ih (i+1) bi bv).1 (le_of_not_lt hy)
      · exact (ih (i+1) bi bv).2 z hz

/-- The value returned by `argminGo` is the running best or one of the
scanned elements. -/
lemma argminGo_snd_mem (xs : List ℝ) :
    ∀ (i bi : Nat) (bv : ℝ),
      (argminGo i bi bv xs).2 = bv ∨ (argminGo i bi bv xs).2 ∈ xs := by
  induction xs with
  | nil => intro i bi bv; simp [argminGo]
  | cons y ys ih =>
    intro i bi bv
    simp only [argminGo]
    by_cases hy : y < bv
    · rw [if_pos hy]
      rcases ih (i+1) i y with h | h
      · exact Or.inr (List.mem_cons.mpr (Or.inl h))
      · exact Or.inr (List.mem_cons.mpr (Or.inr h))
    · rw [if_neg hy]
      rcases ih (i+1) bi bv with h | h
      · exact Or.inl h
      · exact Or.inr (List.mem_cons.mpr (Or.inr h))

/-- Unfolding `match_face` on a non-absent query, a non-empty registry and
consistent name/encoding counts reduces to the threshold gate on the
minimum distance. -/
lemma match_face_pos (t : ℝ) (q e : List ℚ) (es : List (List ℚ))
    (names : List String) (hlen : names.length = (e :: es).length) :
    match_face t (some q) (e :: es) names
      = (if (bestOf ((e :: es).map (dist q))).2 ≤ t then
          { matched := true,
            name := names[(bestOf ((e :: es).map (dist q))).1]?,
            confidence := max 0 (1 - (bestOf ((e :: es).map (dist q))).2 / t),
            distance := (((bestOf ((e :: es).map (dist q))).2 : ℝ) : EReal),
            index := some (bestOf ((e :: es).map (dist q))).1 }
         else
          { matched := false, name := none, confidence := 0,
            distance := (((bestOf ((e :: es).map (dist q))).2 : ℝ) : EReal),
            index := none }) := by
  simp only [match_face]
  rw [if_neg (not_not_intro hlen)]

end Matcher

/-- C5: on a non-empty registry with consistent name/encoding counts, a
non-absent query and a positive threshold, the selected candidate has
the minimum distance; it is accepted exactly when that distance is at
most the threshold, with confidence `max 0 (1 - distance/threshold)`;
the confidence always lies in `[0, 1]`; at `distance = threshold` the
match is accepted with confidence `0`, and at `distance = 0` with
confidence `1`. -/
theorem C5_threshold_gate_and_confidence :
    ∀ (t : ℝ) (q e : List ℚ) (es : List (List ℚ)) (names : List String),
      names.length = (e :: es).length → 0 < t →
      ∀ d, d = (Matcher.bestOf ((e :: es).map (Matcher.dist q))).2 →
      (d ∈ (e :: es).map (Matcher.dist q) ∧
        ∀ y ∈ (e :: es).map (Matcher.dist q), d ≤ y) ∧
      ((Matcher.match_face t (some q) (e :: es) names).matched = true
        ↔ d ≤ t) ∧
      (d ≤ t → (Matcher.match_face t (some q) (e :: es) names).confidence
        = max 0 (1 - d / t)) ∧
      (0 ≤ (Matcher.match_face t (some q) (e :: es) names).confidence ∧
        (Matcher.match_face t (some q) (e :: es) names).confidence ≤ 1) ∧
      (d = t →
        (Matcher.match_face t (some q) (e :: es) names).matched = true ∧
        (Matcher.match_face t (some q) (e :: es) names).confidence = 0) ∧
      (d = 0 →
        (Matcher.match_face t (some q) (e :: es) names).matched = true ∧
        (Matcher.match_face t (some q) (e :: es) names).confidence = 1) := by
  intro t q e es names hlen ht d hd
  have hmem : d ∈ (e :: es).map (Matcher.dist q) := by
    rw [hd]
    rcases Matcher.argminGo_snd_mem (es.map (Matcher.dist q)) 1 0
        (Matcher.dist q e) with h | h
    · rw [show ((e :: es).map (Matcher.dist q))
          = Matcher.dist q e :: es.map (Matcher.dist q) from rfl]
      rw [show Matcher.bestOf (Matcher.dist q e :: es.map (Matcher.dist q))
          = Matcher.argminGo 1 0 (Matcher.dist q e)
              (es.map (Matcher.dist q)) from rfl]
      rw [h]
      exact List.mem_cons_self _ _
    · rw [show ((e :: es).map (Matcher.dist q))
          = Matcher.dist q e :: es.map (Matcher.dist q) from rfl]
      exact List.mem_cons_of_mem _ h
  have hle : ∀ y ∈ (e :: es).map (Matcher.dist q), d ≤ y := by
    intro y hy
    rw [hd]
    rcases List.mem_cons.mp hy with hy' | hy'
    · rw [hy']
      exact (Matcher.argminGo_snd_le (es.map (Matcher.dist q)) 1 0
        (Matcher.dist q e)).1
    · exact (Matcher.argminGo_snd_le (es.map (Matcher.dist q)) 1 0
        (Matcher.dist q e)).2 y hy'
  have hd0 : 0 ≤ d := by
    rcases List.mem_map.mp hmem with ⟨v, _, hv⟩
    rw [← hv]
    exact Real.sqrt_nonneg _
  have hmf := Matcher.match_face_pos t q e es names hlen
  by_cases hdt : d ≤ t
  · rw [hd] at hdt
    rw [hmf, if_pos hdt]
    rw [← hd] at hdt
    refine ⟨⟨hmem, hle⟩, by simp [hdt], ?_, ?_, ?_, ?_⟩
    · intro _
      rw [hd]
    · constructor
      · exact le_max_left _ _
      · rw [← hd]
        refine max_le (by norm_num) ?_
        have : 0 ≤ d / t := div_nonneg hd0 (le_of_lt ht)
        linarith
    · intro hdeq
      refine ⟨rfl, ?_⟩
      rw [← hd, hdeq, div_self (ne_of_gt ht)]
      norm_num
    · intro hdeq
      refine ⟨rfl, ?_⟩
      rw [← hd, hdeq]
      rw [zero_div]
      norm_num
  · have hdt' : ¬ (Matcher.bestOf ((e :: es).map (Matcher.dist q))).2 ≤ t := by
      rw [← hd]; exact hdt
    rw [hmf, if_neg hdt']
    refine ⟨⟨hmem, hle⟩, by simp [hdt], ?_, ?_, ?_, ?_⟩
    · intro h
      exact absurd h hdt
    · exact ⟨le_refl 0, by norm_num⟩
    · intro hdeq
      exact absurd (le_of_eq hdeq) hdt
    · intro hdeq
      exact absurd (hdeq ▸ le_of_lt ht) hdt

/-- C5 (witness): with threshold 1, query `[0]` against the single
registry vector `[1]` (distance exactly 1 = threshold), the match is
accepted with confidence 0. -/
theorem C5_threshold_gate_and_confidence_witness :
    (Matcher.match_face 1 (some [0]) [[1]] ["a"]).matched = true ∧
    (Matcher.match_face 1 (some [0]) [[1]] ["a"]).confidence = 0 := by
  have hd : (Matcher.bestOf (([1] :: []).map (Matcher.dist [0]))).2
      = (1 : ℝ) := by
    rw [show Matcher.bestOf (([1] :: []).map (Matcher.dist [0]))
        = (0, Matcher.dist [0] [1]) from rfl]
    show Matcher.dist [0] [1] = 1
    unfold Matcher.dist Matcher.sumSq
    norm_num
  have h := C5_threshold_gate_and_confidence 1 [0] [1] [] ["a"]
    rfl (by norm_num) _ rfl
  have h1 := h.2.2.2.2.1 hd
  exact ⟨h1.1, h1.2⟩

namespace Storage

/-- Elementwise addition keeps the common length. -/
lemma zipAdd_length (a b : List ℚ) :
    (a.zipWith (· + ·) b).length = min a.length b.length :=
  List.length_zipWith _ _ _

/-- Componentwise reading of the elementwise addition. -/
lemma getD_zipAdd (a : List ℚ) :
    ∀ (b : List ℚ) (i : Nat), i < a.length → i < b.length →
      (a.zipWith (· + ·) b).getD i 0 = a.getD i 0 + b.getD i 0 := by
  induction a with
  | nil => intro b i hi _; simp at hi
  | cons x xs ih =>
    intro b i hi hb
    cases b with
    | nil => simp at hb
    | cons y ys =>
      cases i with
      | zero => simp [List.getD]
      | succ j =>
        simp only [List.zipWith_cons_cons]
        simp only [List.getD_cons_succ]
        exact ih ys j (Nat.lt_of_succ_lt_succ hi) (Nat.lt_of_succ_lt_succ hb)

/-- The running elementwise sum of the sample rows: length and
componentwise value. -/
lemma foldl_zipAdd (n : Nat) (vs : List (List ℚ)) :
    ∀ (acc : List ℚ), acc.length = n → (∀ w ∈ vs, w.length = n) →
      (vs.foldl (fun a w => a.zipWith (· + ·) w) acc).length = n ∧
      ∀ i, i < n →
        (vs.foldl (fun a w => a.zipWith (· + ·) w) acc).getD i 0
          = acc.getD i 0 + (vs.map (fun v => v.getD i 0)).sum := by
  induction vs with
  | nil =>
    intro acc hacc _
    simp [hacc]
  | cons w ws ih =>
    intro acc hacc hlen
    have hw : w.length = n := hlen w (List.mem_cons_self _ _)
    have hacc' : (acc.zipWith (· + ·) w).length = n := by
      rw [zipAdd_length, hacc, hw, min_self]
    have hrest : ∀ v ∈ ws, v.length = n :=
      fun v hv => hlen v (List.mem_cons_of_mem _ hv)
    have hih := ih (acc.zipWith (· + ·) w) hacc' hrest
    refine ⟨hih.1, ?_⟩
    intro i hi
    simp only [List.foldl_cons]
    rw [hih.2 i hi, getD_zipAdd acc w i (hacc ▸ hi) (hw ▸ hi)]
    simp [add_assoc]

/-- Componentwise reading of the final division by the sample count. -/
lemma getD_map_div (l : List ℚ) (c : ℚ) :
    ∀ i : Nat, (l.map (fun x => x / c)).getD i 0 = (l.getD i 0) / c := by
  induction l with
  | nil => intro i; simp [zero_div]
  | cons x xs ih =>
    intro i
    cases i with
    | zero => simp [List.getD]
    | succ j => simpa [List.getD] using ih j

end Storage

/-- C7: registering an identity assigns id equal to the registry size
before the insertion and appends the averaged sample vector; the stored
vector is the elementwise mean of the samples (component `i` is the sum
of the samples' components `i` divided by the number of samples). -/
theorem C7_registration_averaging :
    (∀ (st : Storage.FaceStorage) (nm : String) (rt : ℚ)
       (samples : List (List ℚ)),
       (Storage.registerIdentity st nm rt samples).1 = st.faces.length ∧
       (Storage.registerIdentity st nm rt samples).2.faces.length
         = st.faces.length + 1 ∧
       (Storage.registerIdentity st nm rt samples).2.encodings
         = st.encodings ++ [Storage.npMeanAxis0 samples]) ∧
    (∀ (samples : List (List ℚ)) (n : Nat),
       samples ≠ [] → (∀ v ∈ samples, v.length = n) →
       (Storage.npMeanAxis0 samples).length = n ∧
       ∀ i, i < n →
         (Storage.npMeanAxis0 samples).getD i 0
           = (samples.map (fun v => v.getD i 0)).sum
             / (samples.length : ℚ)) := by
  constructor
  · intro st nm rt samples
    refine ⟨rfl, ?_, rfl⟩
    simp [Storage.registerIdentity, Storage.register_face]
  · intro samples n hne hlen
    match samples with
    | [] => exact absurd rfl hne
    | v :: vs =>
      have hv : v.length = n := hlen v (List.mem_cons_self _ _)
      have hrest : ∀ w ∈ vs, w.length = n :=
        fun w hw => hlen w (List.mem_cons_of_mem _ hw)
      have hfold := Storage.foldl_zipAdd n vs v hv hrest
      constructor
      · simp only [Storage.npMeanAxis0, List.length_map]
        exact hfold.1
      · intro i hi
        simp only [Storage.npMeanAxis0]
        rw [Storage.getD_map_div, hfold.2 i hi]
        simp

/-- C7 (witness): the mean of samples `[1]` and `[3]` has length 1 and
component 0 equal to `(1 + 3) / 2`. -/
theorem C7_registration_averaging_witness :
    (Storage.npMeanAxis0 [[(1 : ℚ)], [3]]).length = 1 ∧
    ∀ i, i < 1 →
      (Storage.npMeanAxis0 [[(1 : ℚ)], [3]]).getD i 0
        = (([[(1 : ℚ)], [3]].map (fun v => v.getD i 0)).sum)
          / (([[(1 : ℚ)], [3]].length : ℕ) : ℚ) := by
  have h := C7_registration_averaging.2 [[(1 : ℚ)], [3]] 1
    (by simp)
    (by
      intro v hv
      rcases List.mem_cons.mp hv with h | h
      · rw [h]; rfl
      · rcases List.mem_cons.mp h with h | h
        · rw [h]; rfl
        · simp at h)
  exact ⟨h.1, h.2⟩

namespace Ledger

/-- Time of the last ENTRY among today's events for a name (claim
vocabulary for "latest ENTRY time"). -/
def lastEntryTimeToday (logs : List Event) (now : ℚ) (nm : String) :
    Option ℚ :=
  (((get_today_logs logs now).filter (fun (e : Event) =>
    decide (e.name = nm ∧ e.type = EType.punch_in))).getLast?).map Event.time

/-- Time of the last EXIT among today's events for a name. -/
def lastExitTimeToday (logs : List Event) (now : ℚ) (nm : String) :
    Option ℚ :=
  (((get_today_logs logs now).filter (fun (e : Event) =>
    decide (e.name = nm ∧ e.type = EType.punch_out))).getLast?).map Event.time

/-- Duration carried by the last duration-bearing EXIT among today's
events for a name. -/
def lastExitDurationToday (logs : List Event) (now : ℚ) (nm : String) :
    Option ℚ :=
  (((get_today_logs logs now).filter (fun (e : Event) =>
    decide (e.name = nm ∧ e.type = EType.punch_out ∧
      e.duration.isSome = true))).getLast?).bind Event.duration

/-- Invariant of the grouping loop of `get_today_summary`: after
processing the events `processed`, the dictionary `ps` has one row per
name seen, and each row holds the last entry time, last exit time and
last recorded duration of its name among `processed`. -/
def SummaryInv (ps : List Person) (processed : List Event) : Prop :=
  (ps.map Person.name).Nodup ∧
  (∀ p ∈ ps, ∃ e ∈ processed, e.name = p.name) ∧
  (∀ e ∈ processed, ∃ p ∈ ps, p.name = e.name) ∧
  (∀ p ∈ ps,
    p.punch_in = ((processed.filter (fun (e : Event) =>
      decide (e.name = p.name ∧ e.type = EType.punch_in))).getLast?).map
        Event.time ∧
    p.punch_out = ((processed.filter (fun (e : Event) =>
      decide (e.name = p.name ∧ e.type = EType.punch_out))).getLast?).map
        Event.time ∧
    p.duration = ((processed.filter (fun (e : Event) =>
      decide (e.name = p.name ∧ e.type = EType.punch_out ∧
        e.duration.isSome = true))).getLast?).bind Event.duration)

/-- Helper `stepPerson` never changes the row's name. -/
lemma stepPerson_name (p : Person) (e : Event) :
    (stepPerson p e).name = p.name := by
  cases h : e.type <;> simp [stepPerson, h]

end Ledger

namespace Ledger

/-- Appending an event that satisfies the filter makes it the last
match. -/
lemma getLast?_filter_append_true (processed : List Event) (e : Event)
    (p : Event → Bool) (hp : p e = true) :
    ((processed ++ [e]).filter p).getLast? = some e := by
  rw [List.filter_append,
    show [e].filter p = [e] by simp [List.filter_cons, hp]]
  exact List.getLast?_concat _

/-- Appending an event that fails the filter leaves the filtered list
unchanged. -/
lemma filter_append_false (processed : List Event) (e : Event)
    (p : Event → Bool) (hp : p e = false) :
    (processed ++ [e]).filter p = processed.filter p := by
  rw [List.filter_append,
    show [e].filter p = [] by simp [List.filter_cons, hp]]
  exact List.append_nil _

/-- One grouping-loop iteration preserves the loop invariant. -/
lemma stepPeople_inv (ps : List Person) (processed : List Event)
    (e : Event) (h : SummaryInv ps processed) :
    SummaryInv (stepPeople ps e) (processed ++ [e]) := by
  obtain ⟨hnodup, hps, hproc, hfields⟩ := h
  by_cases hany : (ps.any (fun (p : Person) => p.name = e.name)) = true
  · have hstep : stepPeople ps e
        = ps.map (fun p => if p.name = e.name then stepPerson p e else p) := by
      unfold stepPeople
      rw [if_pos hany]
    have hfname : ∀ p : Person,
        ((if p.name = e.name then stepPerson p e else p) : Person).name
          = p.name := by
      intro p
      by_cases hp : p.name = e.name
      · rw [if_pos hp, stepPerson_name]
      · rw [if_neg hp]
    have hcomp : Person.name ∘
        (fun p => if p.name = e.name then stepPerson p e else p)
        = Person.name := funext fun p => hfname p
    rw [hstep]
    refine ⟨?_, ?_, ?_, ?_⟩
    · rw [List.map_map, hcomp]
      exact hnodup
    · intro p' hp'
      obtain ⟨p, hp, rfl⟩ := List.mem_map.mp hp'
      obtain ⟨e', he', hn⟩ := hps p hp
      exact ⟨e', List.mem_append_left _ he', by rw [hfname]; exact hn⟩
    · intro e' he'
      rcases List.mem_append.mp he' with he' | he'
      · obtain ⟨p, hp, hpn⟩ := hproc e' he'
        refine ⟨_, List.mem_map_of_mem _ hp, ?_⟩
        rw [hfname]
        exact hpn
      · rw [List.mem_singleton] at he'
        subst he'
        obtain ⟨p, hp, hdec⟩ := List.any_eq_true.mp hany
        refine ⟨_, List.mem_map_of_mem _ hp, ?_⟩
        rw [hfname]
        exact of_decide_eq_true hdec
    · intro p' hp'
      obtain ⟨p, hp, rfl⟩ := List.mem_map.mp hp'
      obtain ⟨hin, hout, hdur⟩ := hfields p hp
      by_cases hpe : p.name = e.name
      · rw [if_pos hpe]
        cases hty : e.type with
        | punch_in =>
          have hsp : stepPerson p e = { p with punch_in := some e.time } := by
            simp [stepPerson, hty]
          rw [hsp]
          refine ⟨?_, ?_, ?_⟩
          · show some e.time = _
            rw [getLast?_filter_append_true _ _ _
              (decide_eq_true ⟨hpe.symm, hty⟩)]
            rfl
          · show p.punch_out = _
            rw [filter_append_false _ _ _ (by simp [hty])]
            exact hout
          · show p.duration = _
            rw [filter_append_false _ _ _ (by simp [hty])]
            exact hdur
        | punch_out =>
          have hsp : stepPerson p e
              = { p with
                  punch_out := some e.time,
                  duration := (match e.duration with
                               | some d => some d
                               | none => p.duration) } := by
            simp [stepPerson, hty]
          rw [hsp]
          refine ⟨?_, ?_, ?_⟩
          · show p.punch_in = _
            rw [filter_append_false _ _ _ (by simp [hty])]
            exact hin
          · show some e.time = _
            rw [getLast?_filter_append_true _ _ _
              (decide_eq_true ⟨hpe.symm, hty⟩)]
            rfl
          · show (match e.duration with
                  | some d => some d
                  | none => p.duration) = _
            cases hdur' : e.duration with
            | some d =>
              rw [getLast?_filter_append_true _ _ _
                (decide_eq_true ⟨hpe.symm, hty, by simp [hdur']⟩)]
              simp [hdur']
            | none =>
              rw [filter_append_false _ _ _ (by simp [hdur'])]
              exact hdur
      · rw [if_neg hpe]
        have hne : e.name ≠ p.name := fun hc => hpe hc.symm
        refine ⟨?_, ?_, ?_⟩
        · rw [filter_append_false _ _ _ (by simp [hne])]
          exact hin
        · rw [filter_append_false _ _ _ (by simp [hne])]
          exact hout
        · rw [filter_append_false _ _ _ (by simp [hne])]
          exact hdur
  · have hstep : stepPeople ps e
        = ps ++ [stepPerson (freshPerson e.name) e] := by
      unfold stepPeople
      rw [if_neg hany]
    have hnone : ∀ p ∈ ps, p.name ≠ e.name := by
      intro p hp hc
      exact hany (List.any_eq_true.mpr ⟨p, hp, decide_eq_true hc⟩)
    have hprocnames : ∀ e' ∈ processed, e'.name ≠ e.name := by
      intro e' he' hc
      obtain ⟨p, hp, hpn⟩ := hproc e' he'
      exact hnone p hp (hpn.trans hc)
    have hq : (stepPerson (freshPerson e.name) e).name = e.name := by
      rw [stepPerson_name]
      rfl
    have hmapq : ([stepPerson (freshPerson e.name) e].map Person.name)
        = [e.name] := by simp [hq]
    rw [hstep]
    refine ⟨?_, ?_, ?_, ?_⟩
    · rw [List.map_append, hmapq]
      rw [List.nodup_append]
      refine ⟨hnodup, List.nodup_singleton _, ?_⟩
      intro a ha hb
      rw [List.mem_singleton] at hb
      obtain ⟨p, hp, hpn⟩ := List.mem_map.mp ha
      exact hnone p hp (by rw [hpn, hb])
    · intro p' hp'
      rcases List.mem_append.mp hp' with hp' | hp'
      · obtain ⟨e', he', hn⟩ := hps p' hp'
        exact ⟨e', List.mem_append_left _ he', hn⟩
      · rw [List.mem_singleton] at hp'
        subst hp'
        exact ⟨e, List.mem_append_right _ (List.mem_cons_self _ _), hq.symm⟩
    · intro e' he'
      rcases List.mem_append.mp he' with he' | he'
      · obtain ⟨p, hp, hpn⟩ := hproc e' he'
        exact ⟨p, List.mem_append_left _ hp, hpn⟩
      · rw [List.mem_singleton] at he'
        refine ⟨stepPerson (freshPerson e.name) e,
          List.mem_append_right _ (List.mem_cons_self _ _), ?_⟩
        rw [he']
        exact hq
    · intro p' hp'
      rcases List.mem_append.mp hp' with hp' | hp'
      · obtain ⟨hin, hout, hdur⟩ := hfields p' hp'
        have hne : e.name ≠ p'.name := fun hc => hnone p' hp' hc.symm
        refine ⟨?_, ?_, ?_⟩
        · rw [filter_append_false _ _ _ (by simp [hne])]
          exact hin
        · rw [filter_append_false _ _ _ (by simp [hne])]
          exact hout
        · rw [filter_append_false _ _ _ (by simp [hne])]
          exact hdur
      · rw [List.mem_singleton] at hp'
        subst hp'
        have hfe : ∀ (r : Event → Bool),
            (∀ e', r e' = true → e'.name = e.name) →
            processed.filter r = [] := by
          intro r hr
          rw [List.filter_eq_nil_iff]
          intro a ha hc
          exact hprocnames a ha (hr a hc)
        cases hty : e.type with
        | punch_in =>
          have hsp : stepPerson (freshPerson e.name) e
              = { name := e.name, punch_in := some e.time,
                  punch_out := none, duration := none,
                  status := Status.unknown } := by
            simp [stepPerson, hty, freshPerson]
          rw [hsp]
          refine ⟨?_, ?_, ?_⟩
          · show some e.time = _
            rw [getLast?_filter_append_true _ _ _
              (decide_eq_true ⟨rfl, hty⟩)]
            rfl
          · show (none : Option ℚ) = _
            rw [filter_append_false _ _ _ (by simp [hty]),
              hfe _ (fun e' hc => (of_decide_eq_true hc).1)]
            rfl
          · show (none : Option ℚ) = _
            rw [filter_append_false _ _ _ (by simp [hty]),
              hfe _ (fun e' hc => (of_decide_eq_true hc).1)]
            rfl
        | punch_out =>
          have hsp : stepPerson (freshPerson e.name) e
              = { name := e.name, punch_in := none,
                  punch_out := some e.time,
                  duration := (match e.duration with
                               | some d => some d
                               | none => none),
                  status := Status.unknown } := by
            simp [stepPerson, hty, freshPerson]
          rw [hsp]
          refine ⟨?_, ?_, ?_⟩
          · show (none : Option ℚ) = _
            rw [filter_append_false _ _ _ (by simp [hty]),
              hfe _ (fun e' hc => (of_decide_eq_true hc).1)]
            rfl
          · show some e.time = _
            rw [getLast?_filter_append_true _ _ _
              (decide_eq_true ⟨rfl, hty⟩)]
            rfl
          · show (match e.duration with
                  | some d => some d
                  | none => (none : Option ℚ)) = _
            cases hdur' : e.duration with
            | some d =>
              rw [getLast?_filter_append_true _ _ _
                (decide_eq_true ⟨rfl, hty, by simp [hdur']⟩)]
              simp [hdur']
            | none =>
              rw [filter_append_false _ _ _ (by simp [hdur']),
                hfe _ (fun e' hc => (of_decide_eq_true hc).1)]
              rfl

end Ledger

namespace Ledger

/-- The whole grouping loop establishes the invariant. -/
lemma foldl_stepPeople_inv (rest : List Event) :
    ∀ (ps : List Person) (processed : List Event),
      SummaryInv ps processed →
      SummaryInv (rest.foldl stepPeople ps) (processed ++ rest) := by
  induction rest with
  | nil =>
    intro ps processed h
    simpa using h
  | cons e rest ih =>
    intro ps processed h
    have h2 := ih (stepPeople ps e) (processed ++ [e])
      (stepPeople_inv ps processed e h)
    simpa [List.append_assoc] using h2

/-- The invariant holds initially. -/
lemma summaryInv_nil : SummaryInv [] [] := by
  refine ⟨List.nodup_nil, ?_, ?_, ?_⟩ <;> simp

/-- The grouped rows of `get_today_summary` (before status assignment)
satisfy the invariant over today's events. -/
lemma get_today_summary_inv (logs : List Event) (now : ℚ) :
    SummaryInv ((get_today_logs logs now).foldl stepPeople [])
      (get_today_logs logs now) := by
  simpa using foldl_stepPeople_inv (get_today_logs logs now) [] []
    summaryInv_nil

/-- A list's `getLast?` is one of its members. -/
lemma mem_of_getLast?_eq {α : Type} (L : List α) (x : α)
    (h : L.getLast? = some x) : x ∈ L := by
  induction L with
  | nil => simp at h
  | cons a L ih =>
    cases L with
    | nil =>
      simp only [List.getLast?_singleton, Option.some.injEq] at h
      rw [h]
      exact List.mem_cons_self _ _
    | cons b M =>
      rw [List.getLast?_cons_cons] at h
      exact List.mem_cons_of_mem _ (ih h)

/-- In a list whose timestamps are in non-decreasing order, the last
element's timestamp bounds every member's timestamp. -/
lemma getLast?_timestamp_max (L : List Event)
    (h : L.Pairwise (fun a b => a.timestamp ≤ b.timestamp)) (e' : Event)
    (hl : L.getLast? = some e') : ∀ e ∈ L, e.timestamp ≤ e'.timestamp := by
  induction L with
  | nil => simp at hl
  | cons a L ih =>
    cases L with
    | nil =>
      simp only [List.getLast?_singleton, Option.some.injEq] at hl
      intro e he
      rw [List.mem_singleton] at he
      rw [he, hl]
    | cons b M =>
      rw [List.getLast?_cons_cons] at hl
      obtain ⟨hhead, htail⟩ := List.pairwise_cons.mp h
      intro e he
      rcases List.mem_cons.mp he with he | he
      · rw [he]
        exact hhead e' (mem_of_getLast?_eq _ _ hl)
      · exact ih htail hl e he

/-- Helper `setStatus` leaves every data field unchanged. -/
lemma setStatus_name (p : Person) : (setStatus p).name = p.name := rfl

/-- Derivation of the row status from the presence of the punch times. -/
lemma setStatus_status (p : Person) :
    ((setStatus p).status = Status.completed ↔
      p.punch_in.isSome = true ∧ p.punch_out.isSome = true) ∧
    ((setStatus p).status = Status.checked_in ↔
      p.punch_in.isSome = true ∧ p.punch_out = none) := by
  by_cases h1 : p.punch_in.isSome = true <;>
    by_cases h2 : p.punch_out.isSome = true <;>
      simp [setStatus, h1, h2, Option.not_isSome_iff_eq_none.mp] <;>
      first
      | exact Option.not_isSome_iff_eq_none.mp h2
      | (intro hc; rw [hc] at h2; simp at h2)

end Ledger

/-- C6: the today-summary has one row per name; each row stems from an
event of today, reports the time of the last ENTRY and the time of the
last EXIT of today for its name (and the duration recorded by the last
duration-bearing EXIT), and its status is Completed exactly when both
times are present and Checked In exactly when only an ENTRY time is
present; every name with an event today appears, and a name with no
event today never appears.  With a chronologically ordered ledger, the
last event of any of today's filtered sublists also carries the maximal
timestamp, so the reported times are the latest ones. -/
theorem C6_today_summary :
    ∀ (logs : List Ledger.Event) (now : ℚ),
      ((Ledger.get_today_summary logs now).map Ledger.Person.name).Nodup ∧
      (∀ p ∈ Ledger.get_today_summary logs now,
        (∃ e ∈ logs, e.date = Ledger.dayOf now ∧ e.name = p.name) ∧
        p.punch_in = Ledger.lastEntryTimeToday logs now p.name ∧
        p.punch_out = Ledger.lastExitTimeToday logs now p.name ∧
        p.duration = Ledger.lastExitDurationToday logs now p.name ∧
        (p.status = Ledger.Status.completed ↔
          p.punch_in.isSome = true ∧ p.punch_out.isSome = true) ∧
        (p.status = Ledger.Status.checked_in ↔
          p.punch_in.isSome = true ∧ p.punch_out = none)) ∧
      (∀ nm : String,
        (∃ e ∈ logs, e.date = Ledger.dayOf now ∧ e.name = nm) →
        ∃ p ∈ Ledger.get_today_summary logs now, p.name = nm) ∧
      (∀ nm : String,
        (¬ ∃ e ∈ logs, e.date = Ledger.dayOf now ∧ e.name = nm) →
        ∀ p ∈ Ledger.get_today_summary logs now, p.name ≠ nm) ∧
      (logs.Pairwise (fun a b => a.timestamp ≤ b.timestamp) →
        ∀ (r : Ledger.Event → Bool) (e' : Ledger.Event),
          ((Ledger.get_today_logs logs now).filter r).getLast? = some e' →
          ∀ e ∈ (Ledger.get_today_logs logs now).filter r,
            e.timestamp ≤ e'.timestamp) := by
  intro logs now
  obtain ⟨hnodup, hps, hproc, hfields⟩ := Ledger.get_today_summary_inv logs now
  have hsum : Ledger.get_today_summary logs now
      = ((Ledger.get_today_logs logs now).foldl Ledger.stepPeople []).map
        Ledger.setStatus := rfl
  refine ⟨?_, ?_, ?_, ?_, ?_⟩
  · rw [hsum, List.map_map,
      show (Ledger.Person.name ∘ Ledger.setStatus) = Ledger.Person.name
        from funext fun p => rfl]
    exact hnodup
  · intro p hp
    rw [hsum] at hp
    obtain ⟨q, hq, rfl⟩ := List.mem_map.mp hp
    obtain ⟨hin, hout, hdur⟩ := hfields q hq
    obtain ⟨e, he, hen⟩ := hps q hq
    obtain ⟨he1, he2⟩ := List.mem_filter.mp he
    refine ⟨⟨e, he1, of_decide_eq_true he2, hen⟩, ?_, ?_, ?_, ?_, ?_⟩
    · exact hin
    · exact hout
    · exact hdur
    · exact (Ledger.setStatus_status q).1
    · exact (Ledger.setStatus_status q).2
  · intro nm hex
    obtain ⟨e, he, hed, hen⟩ := hex
    have hmem : e ∈ Ledger.get_today_logs logs now :=
      List.mem_filter.mpr ⟨he, decide_eq_true hed⟩
    obtain ⟨q, hq, hqn⟩ := hproc e hmem
    refine ⟨Ledger.setStatus q, ?_, ?_⟩
    · rw [hsum]
      exact List.mem_map_of_mem _ hq
    · rw [Ledger.setStatus_name, hqn, hen]
  · intro nm hno p hp hpn
    rw [hsum] at hp
    obtain ⟨q, hq, rfl⟩ := List.mem_map.mp hp
    obtain ⟨e, he, hen⟩ := hps q hq
    obtain ⟨he1, he2⟩ := List.mem_filter.mp he
    exact hno ⟨e, he1, of_decide_eq_true he2, hen.trans hpn⟩
  · intro hsort r e' hl e he
    have hsub : ((Ledger.get_today_logs logs now).filter r).Sublist logs :=
      (List.filter_sublist _).trans (List.filter_sublist _)
    exact Ledger.getLast?_timestamp_max _ (List.Pairwise.sublist hsub hsort)
      e' hl e he

/-- C6 (witness): with a single ENTRY for "A" today in the ledger, the
summary contains a row named "A". -/
theorem C6_today_summary_witness :
    ∃ p ∈ Ledger.get_today_summary
      [Ledger.sampleEvent Ledger.EType.punch_in 0] 0, p.name = "A" :=
  (C6_today_summary [Ledger.sampleEvent Ledger.EType.punch_in 0] 0).2.2.1
    "A" ⟨Ledger.sampleEvent Ledger.EType.punch_in 0,
      List.mem_cons_self _ _, rfl, rfl⟩
